import Mathlib

/-!
Verification of the watchback replication engine (src/watchback/sync.py and
src/watchback/restore.py) against its specification.

The filesystem is modelled shallowly: a path is a list of name components, a
filesystem is an association list from paths to nodes, and a node is either a
regular file (with content bytes, st_size and st_mtime) or a directory.  The
cryptographic digest (hashlib.sha256) is modelled as an arbitrary function
`hash : String → String` over which every theorem is universally quantified;
the theorems below only use determinism of the digest, never injectivity, so
they hold in particular for SHA-256.  Timestamps (st_mtime, time.time) are
modelled as integers: every comparison performed by the source is a plain
order comparison, so a dense time domain would not change any statement.
-/

namespace Watchback

/-- A filesystem path, as its list of name components. -/
abbrev Path := List String

/-- Content and stat metadata of a regular file. -/
structure FileData where
  content : String
  size : Nat
  mtime : Int
deriving DecidableEq

/-- A filesystem node: a regular file or a directory.  `data` carries the
stat information; for directories the content field is unused. -/
structure Node where
  isDir : Bool
  data : FileData
deriving DecidableEq

/-- A regular-file node. -/
def fileNode (d : FileData) : Node := ⟨false, d⟩

/-- A directory node (directory stat metadata is not consulted anywhere). -/
def dirNode : Node := ⟨true, ⟨"", 0, 0⟩⟩

/-- A filesystem: an association list from paths to nodes. -/
abbrev FS := List (Path × Node)

/-- Look a path up in the filesystem (first binding wins). -/
def fsLookup : FS → Path → Option Node
  | [], _ => none
  | e :: rest, p => if e.1 = p then some e.2 else fsLookup rest p

/-- Path.exists(). -/
def fsExists (fs : FS) (p : Path) : Bool := (fsLookup fs p).isSome

/-- Path.is_dir(). -/
def isDirAt (fs : FS) (p : Path) : Bool :=
  match fsLookup fs p with
  | some n => n.isDir
  | none => false

/-- Remove every binding of a path. -/
def fsErase : FS → Path → FS
  | [], _ => []
  | e :: rest, p => if e.1 = p then fsErase rest p else e :: fsErase rest p

/-- Create or overwrite the node at a path. -/
def fsWrite (fs : FS) (p : Path) (n : Node) : FS := (p, n) :: fsErase fs p

/-- Byte-wise comparison of strings through their code points, mirroring how
Python compares the snapshot filenames handed to sorted(). -/
def charListLe : List Char → List Char → Bool
  | [], _ => true
  | _ :: _, [] => false
  | a :: as, b :: bs =>
    if a.val < b.val then true
    else if b.val < a.val then false
    else charListLe as bs

/-- String order used by sorted() on snapshot filenames. -/
def strLe (a b : String) : Bool := charListLe a.data b.data

/-! Object store (sync.py lines 48-71).  `file_hash` reads a file in chunks
and digests its bytes; chunking is invisible to the digest of the whole
content, so the model hashes the content directly. -/

/-- file_hash: digest of the file's bytes; opening a missing path or a
directory raises, modelled as `none`. -/
def file_hash (hash : String → String) (fs : FS) (p : Path) : Option String :=
  match fsLookup fs p with
  | some n => if n.isDir then none else some (hash n.data.content)
  | none => none

/-- object_path: mirror / "objects" / h[:2] / h. -/
def object_path (mirror : Path) (h : String) : Path :=
  mirror ++ ["objects", h.take 2, h]

/-- Core of store_object once the source bytes `d` have been read: compute
the digest, and copy the file to the object path only when no object is
already present there (shutil.copy2 copies content and stat metadata). -/
def store_object_data (hash : String → String) (fs : FS) (mirror : Path)
    (d : FileData) : String × FS :=
  let h := hash d.content
  let opath := object_path mirror h
  if fsExists fs opath then (h, fs)
  else (h, fsWrite fs opath (fileNode d))

/-- store_object: hash the source file and insert it into the object store
if absent; fails (None) when the source cannot be read. -/
def store_object (hash : String → String) (fs : FS) (mirror src : Path) :
    Option (String × FS) :=
  match fsLookup fs src with
  | some n =>
    if n.isDir then none
    else some (store_object_data hash fs mirror n.data)
  | none => none

/-! Fault-injected execution of store_object, used to examine what a failed
shutil.copy2 leaves on disk.  copy2 opens the destination at the final
object path and copies the source in chunks; `CopyOutcome.failedAfter k`
models an I/O error raised after only the first `k` bytes were written
(stat metadata is copied after the data, so it has not been applied yet). -/

/-- Outcome of the shutil.copy2 call inside store_object. -/
inductive CopyOutcome where
  | complete
  | failedAfter (bytesWritten : Nat)
deriving DecidableEq

/-- Result of one store_object execution: the returned digest, or the
exception it raised. -/
inductive StoreResult where
  | ok (h : String)
  | raised (msg : String)
deriving DecidableEq

/-- One execution of store_object in which the copy may fail mid-write.
Returns the raised error (if any) together with the resulting filesystem. -/
def store_object_run (hash : String → String) (fs : FS) (mirror src : Path)
    (oc : CopyOutcome) : StoreResult × FS :=
  match fsLookup fs src with
  | some n =>
    if n.isDir then (StoreResult.raised "IsADirectoryError", fs)
    else
      let h := hash n.data.content
      let opath := object_path mirror h
      if fsExists fs opath then (StoreResult.ok h, fs)
      else
        match oc with
        | CopyOutcome.complete => (StoreResult.ok h, fsWrite fs opath (fileNode n.data))
        | CopyOutcome.failedAfter k =>
          (StoreResult.raised "OSError",
           fsWrite fs opath (fileNode ⟨n.data.content.take k, k, 0⟩))
  | none => (StoreResult.raised "FileNotFoundError", fs)

/-! Difference predicate (sync.py lines 145-152). -/

/-- Absolute value, written out so that it evaluates by kernel reduction. -/
def intAbs (i : Int) : Int := if i < 0 then -i else i

/-- files_differ: True when dst is missing, sizes differ, or mtimes differ
by more than one second.  Stat on a missing src raises, modelled as `none`;
note the source returns True for a missing dst before ever statting src. -/
def files_differ (fs : FS) (src dst : Path) : Option Bool :=
  match fsLookup fs dst with
  | none => some true
  | some dn =>
    match fsLookup fs src with
    | none => none
    | some sn =>
      if sn.data.size ≠ dn.data.size then some true
      else if intAbs (sn.data.mtime - dn.data.mtime) > 1 then some true
      else some false

/-! Version store (sync.py lines 126-143). -/

/-- Serialized version metadata record, as json.dump writes it. -/
def version_record_json (h : String) (size : Nat) : String :=
  "\x7b\"hash\": \"" ++ h ++ "\", \"size\": " ++ toString size ++ "\x7d"

/-- mkdir(parents=True, exist_ok=True): create every missing ancestor
directory of `p`, then `p` itself, leaving existing entries alone. -/
def mkdir_p (fs : FS) (p : Path) : FS :=
  (List.range p.length).foldl
    (fun acc i =>
      let pre := p.take (i + 1)
      if fsExists acc pre then acc else fsWrite acc pre dirNode)
    fs

/-- version_file: if the displaced file `dst` does not exist or is a
directory, return immediately; otherwise ingest its bytes into the object
store and write versions/<rel>/<timestamp>.json with its hash and size.
`timestamp` stands for time.strftime of the current wall clock; the mtime
given to the new record file is not consulted anywhere and is set to 0. -/
def version_file (hash : String → String) (timestamp : String) (fs : FS)
    (mirror rel dst : Path) : FS :=
  match fsLookup fs dst with
  | none => fs
  | some n =>
    if n.isDir then fs
    else
      let hfs := store_object_data hash fs mirror n.data
      let vdir := mirror ++ ["versions"] ++ rel
      let vmeta := vdir ++ [timestamp ++ ".json"]
      let record := version_record_json hfs.1 n.data.size
      fsWrite (mkdir_p hfs.2 vdir) vmeta (fileNode ⟨record, record.length, 0⟩)

/-! Mirror detection (restore.py lines 15-24). -/

/-- is_watchback_mirror: the path must exist and be a directory, and at
least one of the four layout entries must exist beneath it. -/
def is_watchback_mirror (fs : FS) (path : Path) : Bool :=
  if !(fsExists fs path) || !(isDirAt fs path) then false
  else
    ["current", "versions", "snapshots", "objects"].any
      (fun name => fsExists fs (path ++ [name]))

/-! Path lock table (sync.py lines 18-45).  The module-level set
_active_sync_paths keyed by (str(mirror), str(rel_path)) pairs, guarded by
a mutex; each operation below is one critical section of that mutex and is
therefore atomic. -/

/-- A lock key: (str(mirror), str(rel_path)). -/
abbrev SyncKey := String × String

/-- try_acquire_sync_path: atomically insert the key, reporting busy when
it is already held.  Returns the flag and the updated lock set. -/
def try_acquire_sync_path (active : List SyncKey) (key : SyncKey) :
    Bool × List SyncKey :=
  if key ∈ active then (false, active)
  else (true, key :: active)

/-- release_sync_path: discard the key from the lock set. -/
def release_sync_path (active : List SyncKey) (key : SyncKey) : List SyncKey :=
  active.filter (fun k => decide (k ≠ key))

/-- wait_acquire_sync_path: poll try_acquire with a short sleep, giving up
only when the stop event is set.  `env i` is the lock-set contents observed
at the i-th poll (other threads may change it between polls) and `stopSet i`
the stop event at that moment; `fuel` bounds the number of polls so that
the spin loop is a total function — exhausting it returns `none`. -/
def wait_acquire_sync_path (env : Nat → List SyncKey) (stopSet : Nat → Bool)
    (key : SyncKey) : Nat → Nat → Option Bool
  | 0, _ => none
  | fuel + 1, i =>
    if (try_acquire_sync_path (env i) key).1 then some true
    else if stopSet i then some false
    else wait_acquire_sync_path env stopSet key fuel (i + 1)

/-- Instantaneous state of the lock table together with the reconciles that
are currently inside a critical section: `holders` records, per concurrent
reconcile (identified by a thread id), the key it is holding. -/
structure LockState where
  active : List SyncKey
  holders : List (Nat × SyncKey)
deriving DecidableEq

/-- Transitions of the lock table.  Every reconcile of a relative path — in
MirrorWorker.sync_full (lines 356-365, 382-389) and in ProfileSync.sync_single
(lines 648-674) — enters its critical section only through a successful
try_acquire (the body of wait_acquire) and leaves it through
release_sync_path in a finally block, which is exactly what the three step
rules allow. -/
inductive LockStep : LockState → LockState → Prop where
  | acquire (t : Nat) (k : SyncKey) (s : LockState)
      (h : (try_acquire_sync_path s.active k).1 = true) :
      LockStep s ⟨(try_acquire_sync_path s.active k).2, (t, k) :: s.holders⟩
  | acquire_busy (t : Nat) (k : SyncKey) (s : LockState)
      (h : (try_acquire_sync_path s.active k).1 = false) :
      LockStep s s
  | release (t : Nat) (k : SyncKey) (s : LockState)
      (h : (t, k) ∈ s.holders) :
      LockStep s ⟨release_sync_path s.active k,
                  s.holders.filter (fun e => decide (e ≠ (t, k)))⟩

/-- States reachable from the initial empty lock table. -/
inductive LockReachable : LockState → Prop where
  | init : LockReachable ⟨[], []⟩
  | step {s t : LockState} : LockReachable s → LockStep s t → LockReachable t

/-! Per-file reconciliation loop of MirrorWorker.sync_full (lines 348-371),
with fault injection.  Each source file is given together with the outcome
of its reconcile body (files_differ / version_file / shutil.copy2): either
it completes or it raises a transient I/O error.  The body sits in a
try/finally with no except clause, so the error propagates out of the loop
after the finally block has released the path lock.  wait_acquire succeeds
immediately here because this sequential model has no competing thread. -/

/-- Outcome of one file's reconcile body. -/
inductive FileResult where
  | ok
  | ioError (msg : String)
deriving DecidableEq

/-- The per-file loop: returns the propagated error (if any), the relative
paths whose reconcile body ran to completion, and the final lock set. -/
def sync_full_files (mirror : String) (active : List SyncKey) :
    List (String × FileResult) → Option String × List String × List SyncKey
  | [] => (none, [], active)
  | (rel, res) :: rest =>
    let a1 := (try_acquire_sync_path active (mirror, rel)).2
    let a2 := release_sync_path a1 (mirror, rel)
    match res with
    | FileResult.ioError msg => (some msg, [], a2)
    | FileResult.ok =>
      let r := sync_full_files mirror a2 rest
      (r.1, rel :: r.2.1, r.2.2)

/-- The worker boundary (MirrorWorker.run, lines 298-322): the whole sweep
runs inside one except clause, so a propagated sweep error becomes an
"ERROR: <msg>" status for that mirror instead of escaping the worker. -/
def run_status (sweep : Option String × List String × List SyncKey) : String :=
  match sweep.1 with
  | some msg => "ERROR: " ++ msg
  | none => "SYNCED"

/-! Progress reporting (sync.py lines 367-371 and 304-314). -/

/-- Bit length of a natural number, written with fuel so that it reduces
inside the kernel (`n + 1` halvings always suffice). -/
def bitLenAux : Nat → Nat → Nat
  | 0, _ => 0
  | fuel + 1, n => if n = 0 then 0 else bitLenAux fuel (n / 2) + 1

/-- Bit length: 0 for 0, otherwise one more than the floor of log2. -/
def bitLen (n : Nat) : Nat := bitLenAux (n + 1) n

/-- Round the exact value m0 + r/b (with 0 ≤ r < b) to the nearest integer,
ties to even — the IEEE-754 default rounding. -/
def roundHalfEven (m0 r b : Nat) : Nat :=
  if 2 * r < b then m0
  else if b < 2 * r then m0 + 1
  else if m0 % 2 = 0 then m0 else m0 + 1

/-- Scale num/den by 2^s, keeping an exact natural fraction. -/
def floatShift (num den : Nat) (s : Int) : Nat × Nat :=
  if 0 ≤ s then (num * 2 ^ s.toNat, den) else (num, den * 2 ^ (-s).toNat)

/-- Correctly rounded IEEE-754 binary64 division num/den, as a dyadic pair
(mantissa, exponent) with value mantissa·2^exponent and a 53-bit mantissa.
This is Python's true division on floats; exponent overflow and subnormals
are not modelled — for the percent computation every value lies well inside
the normal range for any realistic file count. -/
def floatDiv (num den : Nat) : Nat × Int :=
  let s0 : Int := 53 + (bitLen den : Int) - (bitLen num : Int)
  let ab0 := floatShift num den s0
  let s := if 2 ^ 53 ≤ ab0.1 / ab0.2 then s0 - 1 else s0
  let ab := floatShift num den s
  let m := roundHalfEven (ab.1 / ab.2) (ab.1 % ab.2) ab.2
  if m = 2 ^ 53 then (2 ^ 52, 1 - s) else (m, -s)

/-- Correctly rounded binary64 multiplication of a dyadic float by 100. -/
def floatMul100 (m : Nat) (e : Int) : Nat × Int :=
  let p := m * 100
  let t := bitLen p - 53
  let m1 := roundHalfEven (p / 2 ^ t) (p % 2 ^ t) (2 ^ t)
  if m1 = 2 ^ 53 then (2 ^ 52, e + t + 1) else (m1, e + t)

/-- int(x) on a nonnegative dyadic float: truncation toward zero. -/
def floatTrunc (m : Nat) (e : Int) : Nat :=
  if 0 ≤ e then m * 2 ^ e.toNat else m / 2 ^ (-e).toNat

/-- int((processed / total) * 100) exactly as CPython evaluates it: one
correctly rounded binary64 division, one correctly rounded multiplication
by 100, then truncation.  (Checked against CPython for every total < 500
with all 0 ≤ processed ≤ total, and for large random inputs.) -/
def int_percent (processed total : Nat) : Nat :=
  let d := floatDiv processed total
  let p := floatMul100 d.1 d.2
  floatTrunc p.1 p.2

/-- Percent computed after one more file has been processed: the source
computes int((processed / total) * 100) in binary64 floating point — or
100 when total is zero — then caps any value of 100 or more down to 99. -/
def progress_percent (processed total : Nat) : Nat :=
  let percent := if total ≠ 0 then int_percent processed total else 100
  if percent ≥ 100 then 99 else percent

/-- Whether the worker's stop event is set at global step `i`, when the
event becomes set at step `stopAt` (none: never).  A set event stays set. -/
def stopped (stopAt : Option Nat) (i : Nat) : Bool :=
  match stopAt with
  | none => false
  | some s => decide (s ≤ i)

/-- The file-copy phase: processes the remaining files, checking the stop
event before each one (`done` counts files already processed, which also
serves as the global step index).  Returns the emitted percents and whether
the phase ran to completion. -/
def copy_phase (stopAt : Option Nat) (total : Nat) : Nat → Nat → List Nat × Bool
  | _, 0 => ([], true)
  | done, remaining + 1 =>
    if stopped stopAt done then ([], false)
    else
      let r := copy_phase stopAt total (done + 1) remaining
      (progress_percent (done + 1) total :: r.1, r.2)

/-- The orphan-file deletion pass (lines 373-389): checks the stop event
before each of the `n` orphaned files, starting at global step `offset`.
The directory-removal pass that follows (lines 391-398) performs no stop
checks and always completes, so it needs no model of its own. -/
def deletion_phase (stopAt : Option Nat) : Nat → Nat → Bool
  | _, 0 => true
  | offset, n + 1 =>
    if stopped stopAt offset then false
    else deletion_phase stopAt (offset + 1) n

/-- All percents emitted for one mirror by sync_full and then by run: run
emits the final 100 only when the stop event is still unset after the
sweep (lines 304-313); an early return from sync_full means the stop event
is set, so the 100 is skipped. -/
def worker_emits (stopAt : Option Nat) (total delFiles : Nat) : List Nat :=
  let c := copy_phase stopAt total 0 total
  if c.2 = false then c.1
  else if deletion_phase stopAt total delFiles = false then c.1
  else if stopped stopAt (total + delFiles) then c.1
  else c.1 ++ [100]

/-! Scheduler timestamp cache (sync.py lines 459-485). -/

/-- A value read from the profile document: absent (None), a number, or a
value on which float() raises. -/
inductive ProfileValue where
  | missing
  | num (ts : Int)
  | malformed
deriving DecidableEq

/-- ProfileSync._parse_snapshot_time: float(value), with None and parse
failures mapped to None. -/
def parse_snapshot_time : ProfileValue → Option Int
  | ProfileValue.missing => none
  | ProfileValue.num ts => some ts
  | ProfileValue.malformed => none

/-- The cached timestamp and the profile document field it is persisted to. -/
structure SyncState where
  last_snapshot_time : Option Int
  profile_last_snapshot_time : Option Int
deriving DecidableEq

/-- ProfileSync._set_last_snapshot_time: parse the candidate; reject it if
it does not parse or is not strictly above the cached value; on acceptance
update both the cache and the profile document (the on_profile_change
persistence hook has no effect on this state and is not modelled). -/
def set_last_snapshot_time (st : SyncState) (v : ProfileValue) :
    Bool × SyncState :=
  match parse_snapshot_time v with
  | none => (false, st)
  | some ts =>
    match st.last_snapshot_time with
    | some cur =>
      if ts ≤ cur then (false, st)
      else (true, ⟨some ts, some ts⟩)
    | none => (true, ⟨some ts, some ts⟩)

/-- Apply a sequence of candidate updates through the setter. -/
def run_updates (st : SyncState) (vs : List ProfileValue) : SyncState :=
  vs.foldl (fun s v => (set_last_snapshot_time s v).2) st

/-- The inputs a sequence of updates actually accepts, in order. -/
def accepted_values : SyncState → List ProfileValue → List Int
  | _, [] => []
  | st, v :: vs =>
    let r := set_last_snapshot_time st v
    match r.1, parse_snapshot_time v with
    | true, some ts => ts :: accepted_values r.2 vs
    | _, _ => accepted_values r.2 vs

/-! Snapshot store (sync.py lines 154-293).  Snapshot manifest files live
in the snapshots directory; the model keeps them in parsed form as a list
of (filename timestamp, manifest) pairs next to the flat filesystem, since
the source always rereads them through json.load. -/

/-- A snapshot manifest: the build timestamp and the files map from
slash-separated relative path to object hash, in walk order. -/
structure Snapshot where
  timestamp : String
  files : List (String × String)
deriving DecidableEq

/-- Mirror state: the flat filesystem (ground, current/ and objects/ live
here) plus the parsed contents of the snapshots directory. -/
structure MState where
  fs : FS
  snapshots : List (String × Snapshot)
deriving DecidableEq

/-- str(rel) for a relative path. -/
def relName (rel : Path) : String := String.intercalate "/" rel

/-- Whether (and how) a filesystem entry shows up in an os.walk of `root`:
regular files strictly below `root`, keyed relative to it. -/
def walkEntry (root : Path) (e : Path × Node) : Option (Path × FileData) :=
  if e.2.isDir then none
  else if root.isPrefixOf e.1 && decide (root.length < e.1.length) then
    some (e.1.drop root.length, e.2.data)
  else none

/-- os.walk restricted to regular files: every file strictly below `root`,
keyed by its path relative to `root`. -/
def walkFiles (fs : FS) (root : Path) : List (Path × FileData) :=
  fs.filterMap (walkEntry root)

/-- Insert into an association list kept sorted by key. -/
def insertSortedByKey (e : String × String) :
    List (String × String) → List (String × String)
  | [] => [e]
  | x :: xs => if strLe e.1 x.1 then e :: x :: xs else x :: insertSortedByKey e xs

/-- Sort an association list by key, as json.dumps(…, sort_keys=True) does. -/
def sortByKey (l : List (String × String)) : List (String × String) :=
  l.foldr insertSortedByKey []

/-- json.dumps(files, sort_keys=True): canonical serialization of the files
map with sorted keys. -/
def json_dumps_sorted (files : List (String × String)) : String :=
  "\x7b" ++
    String.intercalate ", "
      ((sortByKey files).map (fun e => "\"" ++ e.1 ++ "\": \"" ++ e.2 ++ "\"")) ++
  "\x7d"

/-- snapshot_hash: digest of the canonical serialization of the files map. -/
def snapshot_hash (hash : String → String) (snapshot : Snapshot) : String :=
  hash (json_dumps_sorted snapshot.files)

/-- mirror / "current". -/
def current_root (mirror : Path) : Path := mirror ++ ["current"]

/-- One iteration of build_snapshot's walk: ingest the file into the object
store (store_object applied to a file whose read bytes are the walk entry)
and append its hash to the files map being accumulated. -/
def build_step (hash : String → String) (mirror : Path)
    (acc : List (String × String) × FS) (e : Path × FileData) :
    List (String × String) × FS :=
  let hfs := store_object_data hash acc.2 mirror e.2
  (acc.1 ++ [(relName e.1, hfs.1)], hfs.2)

/-- build_snapshot: walk current/, ingest every file into the object store,
and collect the files map; `now` stands for datetime.now().strftime(…). -/
def build_snapshot (hash : String → String) (fs : FS) (croot mirror : Path)
    (now : String) : Snapshot × FS :=
  let r := (walkFiles fs croot).foldl (build_step hash mirror) ([], fs)
  (⟨now, r.1⟩, r.2)

/-- The most recent snapshot: sorted(snapshots_dir.glob("*.json"))[-1],
i.e. the entry with the largest filename. -/
def last_snapshot : List (String × Snapshot) → Option (String × Snapshot)
  | [] => none
  | e :: rest =>
    match last_snapshot rest with
    | none => some e
    | some m => if strLe e.1 m.1 then some m else some e

/-- last_snapshot_hash: recompute the digest of the files map of the most
recent on-disk snapshot, or None when there is none. -/
def last_snapshot_hash (hash : String → String)
    (snaps : List (String × Snapshot)) : Option String :=
  (last_snapshot snaps).map (fun e => snapshot_hash hash e.2)

/-- MirrorWorker.maybe_create_snapshot: build a manifest from current/,
suppress the commit when its digest equals the digest of the most recent
snapshot (None compares unequal to every digest), otherwise append the
manifest under its timestamp.  The source returns the mtime of the written
file; the model returns the timestamp naming it, keeping the None/Some
shape. -/
def maybe_create_snapshot (hash : String → String) (now : String)
    (mirror : Path) (st : MState) : Option String × MState :=
  let built := build_snapshot hash st.fs (current_root mirror) mirror now
  let new_hash := snapshot_hash hash built.1
  let old_hash := last_snapshot_hash hash st.snapshots
  if some new_hash = old_hash then (none, ⟨built.2, st.snapshots⟩)
  else (some built.1.timestamp,
        ⟨built.2, st.snapshots ++ [(built.1.timestamp, built.1)]⟩)

/-- Example mirror state used by concrete witnesses. -/
def exampleMState : MState :=
  ⟨[(["m", "current", "a.txt"], fileNode ⟨"hello", 5, 0⟩)], []⟩

/-- Invariant of the lock table: every held key is in the lock set, and no
two in-flight reconciles hold the same key. -/
def lock_invariant (s : LockState) : Prop :=
  (∀ e ∈ s.holders, e.2 ∈ s.active) ∧
  s.holders.Pairwise (fun a b => a.2 ≠ b.2)

/-! Helper lemmas about the filesystem model. -/

theorem fsLookup_fsErase_ne (fs : FS) (p q : Path) (h : q ≠ p) :
    fsLookup (fsErase fs p) q = fsLookup fs q := by
  induction fs with
  | nil => rfl
  | cons e rest ih =>
    have hpq : p ≠ q := fun hc => h hc.symm
    by_cases he : e.1 = p
    · have hq : e.1 ≠ q := by rw [he]; exact fun hc => h hc.symm
      simp [fsErase, he, fsLookup, hq, ih, hpq]
    · by_cases heq : e.1 = q <;> simp [fsErase, he, fsLookup, heq, ih, h]

theorem fsLookup_fsWrite (fs : FS) (p : Path) (n : Node) (q : Path) :
    fsLookup (fsWrite fs p n) q = if q = p then some n else fsLookup fs q := by
  by_cases h : q = p
  · simp [fsWrite, fsLookup, h]
  · have hp : p ≠ q := fun hc => h hc.symm
    simp [fsWrite, fsLookup, hp, h]
    exact fsLookup_fsErase_ne fs p q h

theorem store_object_data_eq (hash : String → String) (fs : FS)
    (mirror : Path) (d : FileData) :
    store_object_data hash fs mirror d =
      (hash d.content,
       if fsExists fs (object_path mirror (hash d.content)) = true then fs
       else fsWrite fs (object_path mirror (hash d.content)) (fileNode d)) := by
  by_cases hc : fsExists fs (object_path mirror (hash d.content)) = true <;>
    simp [store_object_data, hc]

/-! C3: object-store insertion. -/

/-- C3: store_object returns the digest of the source file's bytes; the
object lives at the exact layout objects/<hash[0:2]>/<hash>; when an object
with that hash already exists the filesystem (hence that object's contents)
is left untouched, and otherwise the bytes are placed at the object path
with every other path unchanged.  The returned digest is the same in both
cases. -/
theorem store_object_write_once (hash : String → String) (fs : FS)
    (mirror src : Path) (d : FileData)
    (hsrc : fsLookup fs src = some (fileNode d)) :
    ∃ fs2, store_object hash fs mirror src = some (hash d.content, fs2) ∧
      object_path mirror (hash d.content)
        = mirror ++ ["objects", (hash d.content).take 2, hash d.content] ∧
      (fsExists fs (object_path mirror (hash d.content)) = true → fs2 = fs) ∧
      (fsExists fs (object_path mirror (hash d.content)) = false →
        fsLookup fs2 (object_path mirror (hash d.content)) = some (fileNode d) ∧
        ∀ q, q ≠ object_path mirror (hash d.content) →
          fsLookup fs2 q = fsLookup fs q) := by
  refine ⟨(store_object_data hash fs mirror d).2, ?_, rfl, ?_, ?_⟩
  · simp [store_object, hsrc, fileNode, store_object_data_eq]
  · intro hex
    rw [store_object_data_eq]
    simp [hex]
  · intro hex
    rw [store_object_data_eq]
    simp only [hex]
    constructor
    · simp [fsLookup_fsWrite]
    · intro q hq
      simp [fsLookup_fsWrite, hq]

/-- Witness for C3 at a concrete filesystem: the object is absent, so the
bytes land at the object path and the digest of "ab" is returned. -/
theorem store_object_write_once_witness :
    ∃ fs2, store_object (fun s => s) [(["src"], fileNode ⟨"ab", 2, 0⟩)]
        ["m"] ["src"] = some ("ab", fs2) :=
  match store_object_write_once (fun s => s)
      [(["src"], fileNode ⟨"ab", 2, 0⟩)] ["m"] ["src"] ⟨"ab", 2, 0⟩ (by decide) with
  | ⟨fs2, h, _⟩ => ⟨fs2, h⟩

/-! C5: what a failed copy leaves at the object path. -/

/-- C5 counterexample: store_object copies straight to the final path, so a
copy that fails after one byte of "ab" leaves a truncated object at
objects/<hash[0:2]>/<hash> — the final path exists yet does not hold the
complete object bytes, contradicting the claimed temp-and-rename atomicity. -/
theorem store_object_no_temp_counterexample :
    (store_object_run (fun s => s) [(["src"], fileNode ⟨"ab", 2, 5⟩)]
        ["m"] ["src"] (CopyOutcome.failedAfter 1)).1 = StoreResult.raised "OSError" ∧
    fsLookup (store_object_run (fun s => s) [(["src"], fileNode ⟨"ab", 2, 5⟩)]
        ["m"] ["src"] (CopyOutcome.failedAfter 1)).2 (object_path ["m"] "ab")
      = some (fileNode ⟨"a", 1, 0⟩) ∧
    ¬(fsLookup (store_object_run (fun s => s) [(["src"], fileNode ⟨"ab", 2, 5⟩)]
          ["m"] ["src"] (CopyOutcome.failedAfter 1)).2 (object_path ["m"] "ab")
        = none ∨
      fsLookup (store_object_run (fun s => s) [(["src"], fileNode ⟨"ab", 2, 5⟩)]
          ["m"] ["src"] (CopyOutcome.failedAfter 1)).2 (object_path ["m"] "ab")
        = some (fileNode ⟨"ab", 2, 5⟩)) := by
  decide

/-- C5 amended: store_object writes directly to the final object path.  A
completed copy places the complete bytes there; a copy that fails after k
bytes leaves the k-byte prefix of the source at the final path (no
temporary name is involved at any point). -/
theorem store_object_run_direct_write (hash : String → String) (fs : FS)
    (mirror src : Path) (d : FileData) (k : Nat)
    (hsrc : fsLookup fs src = some (fileNode d))
    (habsent : fsExists fs (object_path mirror (hash d.content)) = false) :
    store_object_run hash fs mirror src CopyOutcome.complete
      = (StoreResult.ok (hash d.content),
         fsWrite fs (object_path mirror (hash d.content)) (fileNode d)) ∧
    (store_object_run hash fs mirror src (CopyOutcome.failedAfter k)).1
      = StoreResult.raised "OSError" ∧
    fsLookup (store_object_run hash fs mirror src (CopyOutcome.failedAfter k)).2
        (object_path mirror (hash d.content))
      = some (fileNode ⟨d.content.take k, k, 0⟩) := by
  refine ⟨?_, ?_, ?_⟩ <;>
    simp [store_object_run, hsrc, fileNode, habsent, fsLookup_fsWrite]

/-- Witness for C5's amended theorem at the same concrete input as the
counterexample. -/
theorem store_object_run_direct_write_witness :
    (store_object_run (fun s => s) [(["src"], fileNode ⟨"ab", 2, 5⟩)]
        ["m"] ["src"] (CopyOutcome.failedAfter 1)).1 = StoreResult.raised "OSError" :=
  (store_object_run_direct_write (fun s => s)
      [(["src"], fileNode ⟨"ab", 2, 5⟩)] ["m"] ["src"] ⟨"ab", 2, 5⟩ 1
      (by decide) (by decide)).2.1

/-! C7: the difference predicate. -/

/-- C7: when the source file exists, files_differ returns a Boolean that is
true exactly when the destination does not exist, the sizes differ, or the
modification times differ by more than one second; in particular it is
false — regardless of either file's content — whenever the destination
exists with equal size and an mtime within one second. -/
theorem files_differ_spec (fs : FS) (src dst : Path) (sn : Node)
    (hsrc : fsLookup fs src = some sn) :
    (∃ b, files_differ fs src dst = some b ∧
      (b = true ↔ fsLookup fs dst = none ∨
        ∃ dn, fsLookup fs dst = some dn ∧
          (sn.data.size ≠ dn.data.size ∨
           intAbs (sn.data.mtime - dn.data.mtime) > 1))) ∧
    (∀ dn, fsLookup fs dst = some dn → sn.data.size = dn.data.size →
      intAbs (sn.data.mtime - dn.data.mtime) ≤ 1 →
      files_differ fs src dst = some false) := by
  constructor
  · cases hdst : fsLookup fs dst with
    | none => exact ⟨true, by simp [files_differ, hdst], by simp [hdst]⟩
    | some dn =>
      by_cases hs : sn.data.size ≠ dn.data.size
      · refine ⟨true, by simp [files_differ, hdst, hsrc, hs], ?_⟩
        simp [hdst]
        exact Or.inl hs
      · by_cases hm : intAbs (sn.data.mtime - dn.data.mtime) > 1
        · refine ⟨true, by simp [files_differ, hdst, hsrc, hs, hm], ?_⟩
          simp [hdst]
          exact Or.inr hm
        · refine ⟨false, by simp [files_differ, hdst, hsrc, hs, hm], ?_⟩
          constructor
          · intro hc; exact absurd hc (by simp)
          · rintro (hc | ⟨dn2, hdn2, hcase⟩)
            · exact Option.noConfusion hc
            · obtain rfl : dn = dn2 := by injection hdn2
              rcases hcase with hc | hc
              · exact absurd hc hs
              · exact absurd hc hm
  · intro dn hdst hsize hm
    have hs : ¬sn.data.size ≠ dn.data.size := fun hc => hc hsize
    have hm2 : ¬intAbs (sn.data.mtime - dn.data.mtime) > 1 := not_lt.mpr hm
    simp [files_differ, hdst, hsrc, hs, hm2]

/-- Witness for C7: equal sizes and mtimes one second apart, different
contents — the predicate reports no difference. -/
theorem files_differ_spec_witness :
    files_differ
      [(["g", "a"], fileNode ⟨"new", 3, 10⟩), (["m", "a"], fileNode ⟨"old", 3, 9⟩)]
      ["g", "a"] ["m", "a"] = some false :=
  (files_differ_spec
      [(["g", "a"], fileNode ⟨"new", 3, 10⟩), (["m", "a"], fileNode ⟨"old", 3, 9⟩)]
      ["g", "a"] ["m", "a"] (fileNode ⟨"new", 3, 10⟩) (by decide)).2
    (fileNode ⟨"old", 3, 9⟩) (by decide) (by decide) (by decide)

/-! C9: mirror detection. -/

/-- C9: is_watchback_mirror holds exactly for an existing directory with at
least one of the four layout entries beneath it; a missing path or a
non-directory is never a mirror. -/
theorem is_watchback_mirror_iff (fs : FS) (path : Path) :
    is_watchback_mirror fs path = true ↔
      ((∃ n, fsLookup fs path = some n ∧ n.isDir = true) ∧
       (fsExists fs (path ++ ["current"]) = true ∨
        fsExists fs (path ++ ["versions"]) = true ∨
        fsExists fs (path ++ ["snapshots"]) = true ∨
        fsExists fs (path ++ ["objects"]) = true)) := by
  cases hp : fsLookup fs path with
  | none => simp [is_watchback_mirror, fsExists, isDirAt, hp]
  | some n =>
    cases hdir : n.isDir with
    | false => simp [is_watchback_mirror, fsExists, isDirAt, hp, hdir]
    | true =>
      have hex : fsExists fs path = true := by simp [fsExists, hp]
      simp [is_watchback_mirror, isDirAt, hp, hdir, hex, List.any_cons,
            List.any_nil, or_assoc]

/-- Witness for C9: a directory with only a current/ entry is detected. -/
theorem is_watchback_mirror_iff_witness :
    is_watchback_mirror [(["m"], dirNode), (["m", "current"], dirNode)] ["m"]
      = true :=
  (is_watchback_mirror_iff [(["m"], dirNode), (["m", "current"], dirNode)]
      ["m"]).mpr ⟨⟨dirNode, by decide, rfl⟩, Or.inl (by decide)⟩

/-! C10: version_file precondition guard. -/

/-- C10: when the displaced path does not exist or is a directory,
version_file is a total no-op — it returns the filesystem unchanged, so no
object is stored, no version record is created and no mirror state is
modified. -/
theorem version_file_noop (hash : String → String) (timestamp : String)
    (fs : FS) (mirror rel dst : Path)
    (h : fsLookup fs dst = none ∨
         ∃ n, fsLookup fs dst = some n ∧ n.isDir = true) :
    version_file hash timestamp fs mirror rel dst = fs := by
  rcases h with h | ⟨n, hn, hdir⟩
  · simp [version_file, h]
  · simp [version_file, hn, hdir]

/-- Witness for C10: a directory at the displaced path is left alone. -/
theorem version_file_noop_witness :
    version_file (fun s => s) "ts" [(["m", "current", "d"], dirNode)]
      ["m"] ["d"] ["m", "current", "d"] = [(["m", "current", "d"], dirNode)] :=
  version_file_noop (fun s => s) "ts" [(["m", "current", "d"], dirNode)]
    ["m"] ["d"] ["m", "current", "d"] (Or.inr ⟨dirNode, by decide, rfl⟩)

/-! C6: monotone last_snapshot_time. -/

theorem set_last_snapshot_time_reject (st : SyncState) (v : ProfileValue)
    (h : (set_last_snapshot_time st v).1 = false) :
    (set_last_snapshot_time st v).2 = st := by
  cases hp : parse_snapshot_time v with
  | none => simp [set_last_snapshot_time, hp]
  | some ts =>
    cases hl : st.last_snapshot_time with
    | none => simp [set_last_snapshot_time, hp, hl] at h
    | some cur =>
      by_cases hle : ts ≤ cur
      · simp [set_last_snapshot_time, hp, hl, hle]
      · simp [set_last_snapshot_time, hp, hl, hle] at h

theorem set_last_snapshot_time_accept (st : SyncState) (v : ProfileValue)
    (h : (set_last_snapshot_time st v).1 = true) :
    ∃ ts, parse_snapshot_time v = some ts ∧
      (set_last_snapshot_time st v).2 = ⟨some ts, some ts⟩ ∧
      (∀ cur, st.last_snapshot_time = some cur → cur < ts) := by
  cases hp : parse_snapshot_time v with
  | none => simp [set_last_snapshot_time, hp] at h
  | some ts =>
    refine ⟨ts, rfl, ?_, ?_⟩
    · cases hl : st.last_snapshot_time with
      | none => simp [set_last_snapshot_time, hp, hl]
      | some cur =>
        by_cases hle : ts ≤ cur
        · simp [set_last_snapshot_time, hp, hl, hle] at h
        · simp [set_last_snapshot_time, hp, hl, hle]
    · intro cur hl
      by_cases hle : ts ≤ cur
      · simp [set_last_snapshot_time, hp, hl, hle] at h
      · exact lt_of_not_le hle

theorem accepted_values_gt (vs : List ProfileValue) :
    ∀ (st : SyncState) (c : Int), st.last_snapshot_time = some c →
      ∀ a ∈ accepted_values st vs, c < a := by
  induction vs with
  | nil => intro st c _ a ha; simp [accepted_values] at ha
  | cons v vs ih =>
    intro st c hc a ha
    cases hr : (set_last_snapshot_time st v).1 with
    | false =>
      have h2 := set_last_snapshot_time_reject st v hr
      have hacc : accepted_values st (v :: vs)
          = accepted_values (set_last_snapshot_time st v).2 vs := by
        cases hp : parse_snapshot_time v <;> simp [accepted_values, hr, hp]
      rw [hacc, h2] at ha
      exact ih st c hc a ha
    | true =>
      obtain ⟨ts, hp, h2, hgt⟩ := set_last_snapshot_time_accept st v hr
      have hacc : accepted_values st (v :: vs)
          = ts :: accepted_values ⟨some ts, some ts⟩ vs := by
        simp [accepted_values, hr, hp, h2]
      rw [hacc] at ha
      rcases List.mem_cons.mp ha with rfl | ha
      · exact hgt c hc
      · exact lt_trans (hgt c hc) (ih ⟨some ts, some ts⟩ ts rfl a ha)

theorem run_updates_max (vs : List ProfileValue) : ∀ st : SyncState,
    (run_updates st vs).last_snapshot_time =
      match accepted_values st vs with
      | [] => st.last_snapshot_time
      | a :: as => some (as.foldl max a) := by
  induction vs with
  | nil => intro st; rfl
  | cons v vs ih =>
    intro st
    have hrun : run_updates st (v :: vs)
        = run_updates (set_last_snapshot_time st v).2 vs := rfl
    cases hr : (set_last_snapshot_time st v).1 with
    | false =>
      have h2 := set_last_snapshot_time_reject st v hr
      have hacc : accepted_values st (v :: vs) = accepted_values st vs := by
        have h3 : accepted_values st (v :: vs)
            = accepted_values (set_last_snapshot_time st v).2 vs := by
          cases hp : parse_snapshot_time v <;> simp [accepted_values, hr, hp]
        rw [h3, h2]
      rw [hrun, h2, ih st, hacc]
    | true =>
      obtain ⟨ts, hp, h2, _⟩ := set_last_snapshot_time_accept st v hr
      have hacc : accepted_values st (v :: vs)
          = ts :: accepted_values ⟨some ts, some ts⟩ vs := by
        simp [accepted_values, hr, hp, h2]
      rw [hrun, h2, ih ⟨some ts, some ts⟩, hacc]
      cases hl : accepted_values ⟨some ts, some ts⟩ vs with
      | nil => simp
      | cons a as =>
        have hta : ts < a :=
          accepted_values_gt vs ⟨some ts, some ts⟩ ts rfl a
            (by rw [hl]; exact List.mem_cons_self a as)
        simp only [List.foldl]
        rw [max_eq_right (le_of_lt hta)]

/-- C6: the setter accepts a candidate exactly when it parses and is
strictly above the cached value; a rejected candidate leaves the cache and
the profile document untouched; and after any sequence of updates the
cached value is the maximum of all accepted inputs (unchanged when nothing
was accepted). -/
theorem set_last_snapshot_time_monotone (st : SyncState) (v : ProfileValue)
    (vs : List ProfileValue) :
    ((set_last_snapshot_time st v).1 = true ↔
      ∃ ts, parse_snapshot_time v = some ts ∧
        ∀ cur, st.last_snapshot_time = some cur → cur < ts) ∧
    ((set_last_snapshot_time st v).1 = false →
      (set_last_snapshot_time st v).2 = st) ∧
    ((run_updates st vs).last_snapshot_time =
      match accepted_values st vs with
      | [] => st.last_snapshot_time
      | a :: as => some (as.foldl max a)) := by
  refine ⟨⟨?_, ?_⟩, set_last_snapshot_time_reject st v, run_updates_max vs st⟩
  · intro h
    obtain ⟨ts, hp, _, hgt⟩ := set_last_snapshot_time_accept st v h
    exact ⟨ts, hp, hgt⟩
  · rintro ⟨ts, hp, hgt⟩
    cases hl : st.last_snapshot_time with
    | none => simp [set_last_snapshot_time, hp, hl]
    | some cur =>
      have : ¬ ts ≤ cur := not_le.mpr (hgt cur hl)
      simp [set_last_snapshot_time, hp, hl, this]

/-- Witness for C6: from a cache holding 5, the candidate 3 is rejected and
the state is unchanged. -/
theorem set_last_snapshot_time_monotone_witness :
    (set_last_snapshot_time ⟨some 5, some 5⟩ (ProfileValue.num 3)).2
      = ⟨some 5, some 5⟩ :=
  (set_last_snapshot_time_monotone ⟨some 5, some 5⟩ (ProfileValue.num 3)
      []).2.1 (by decide)

/-! C2: path-lock mutual exclusion. -/

theorem try_acquire_mem (active : List SyncKey) (k : SyncKey) (h : k ∈ active) :
    try_acquire_sync_path active k = (false, active) := by
  simp [try_acquire_sync_path, h]

theorem try_acquire_not_mem (active : List SyncKey) (k : SyncKey)
    (h : k ∉ active) : try_acquire_sync_path active k = (true, k :: active) := by
  simp [try_acquire_sync_path, h]

theorem try_acquire_true_iff (active : List SyncKey) (k : SyncKey) :
    (try_acquire_sync_path active k).1 = true ↔ k ∉ active := by
  by_cases h : k ∈ active <;> simp [try_acquire_sync_path, h]

theorem pairwise_key_eq {l : List (Nat × SyncKey)}
    (hp : l.Pairwise (fun a b => a.2 ≠ b.2)) :
    ∀ a ∈ l, ∀ b ∈ l, a.2 = b.2 → a = b := by
  intro a ha b hb hab
  by_contra hne
  exact absurd hab
    (List.Pairwise.forall (fun x y h => Ne.symm h) hp ha hb hne)

theorem lock_invariant_step {s t : LockState} (hs : lock_invariant s)
    (hst : LockStep s t) : lock_invariant t := by
  cases hst with
  | acquire tid k s2 h =>
    have hk : k ∉ s.active := (try_acquire_true_iff _ _).mp h
    have h2 : (try_acquire_sync_path s.active k).2 = k :: s.active := by
      simp [try_acquire_sync_path, hk]
    rw [h2]
    constructor
    · intro e he
      rcases List.mem_cons.mp he with rfl | he
      · exact List.mem_cons_self _ _
      · exact List.mem_cons_of_mem _ (hs.1 e he)
    · refine List.pairwise_cons.mpr ⟨?_, hs.2⟩
      intro e he hek
      have hek2 : k = e.2 := hek
      exact hk (hek2.symm ▸ hs.1 e he)
  | acquire_busy tid k s2 h => exact hs
  | release tid k s2 h =>
    constructor
    · intro e he
      have hel : e ∈ s.holders := List.mem_of_mem_filter he
      have hne : e ≠ (tid, k) := by
        have hf := List.of_mem_filter he
        simpa using hf
      have hkey : e.2 ≠ k := fun hk =>
        hne (pairwise_key_eq hs.2 e hel (tid, k) h hk)
      exact List.mem_filter.mpr ⟨hs.1 e hel, by simpa using hkey⟩
    · exact List.Pairwise.filter _ hs.2

theorem lock_invariant_reachable {s : LockState} (h : LockReachable s) :
    lock_invariant s := by
  induction h with
  | init => exact ⟨fun e he => absurd he (List.not_mem_nil e), List.Pairwise.nil⟩
  | step _ hst ih => exact lock_invariant_step ih hst

theorem length_filter_key_le_one {l : List (Nat × SyncKey)} (k : SyncKey)
    (hp : l.Pairwise (fun a b => a.2 ≠ b.2)) :
    (l.filter (fun e => decide (e.2 = k))).length ≤ 1 := by
  induction l with
  | nil => simp
  | cons a l ih =>
    by_cases ha : a.2 = k
    · have hnil : l.filter (fun e => decide (e.2 = k)) = [] :=
        List.filter_eq_nil_iff.mpr (fun e he => by
          have hne : a.2 ≠ e.2 := List.rel_of_pairwise_cons hp he
          simp only [decide_eq_true_eq]
          intro hek
          exact hne (ha.trans hek.symm))
      simp [List.filter_cons, ha, hnil]
    · have hfil : (a :: l).filter (fun e => decide (e.2 = k))
          = l.filter (fun e => decide (e.2 = k)) := by
        simp [List.filter_cons, ha]
      rw [hfil]
      exact ih (List.Pairwise.of_cons hp)

theorem wait_acquire_some_true (env : Nat → List SyncKey)
    (stopSet : Nat → Bool) (key : SyncKey) : ∀ fuel i,
    wait_acquire_sync_path env stopSet key fuel i = some true →
    ∃ j, (try_acquire_sync_path (env j) key).1 = true := by
  intro fuel
  induction fuel with
  | zero => intro i h; cases h
  | succ n ih =>
    intro i h
    by_cases ht : (try_acquire_sync_path (env i) key).1 = true
    · exact ⟨i, ht⟩
    · by_cases hst : stopSet i = true
      · simp [wait_acquire_sync_path, ht, hst] at h
      · simp only [wait_acquire_sync_path, ht, hst, if_false,
          Bool.false_eq_true, if_neg] at h
        exact ih (i + 1) (by simpa [Bool.not_eq_true] using h)

theorem wait_acquire_some_false (env : Nat → List SyncKey)
    (stopSet : Nat → Bool) (key : SyncKey) : ∀ fuel i,
    wait_acquire_sync_path env stopSet key fuel i = some false →
    ∃ j, stopSet j = true ∧ (try_acquire_sync_path (env j) key).1 = false := by
  intro fuel
  induction fuel with
  | zero => intro i h; cases h
  | succ n ih =>
    intro i h
    by_cases ht : (try_acquire_sync_path (env i) key).1 = true
    · simp [wait_acquire_sync_path, ht] at h
    · by_cases hst : stopSet i = true
      · exact ⟨i, hst, by simpa [Bool.not_eq_true] using ht⟩
      · simp only [wait_acquire_sync_path, ht, hst, Bool.false_eq_true,
          if_neg] at h
        exact ih (i + 1) (by simpa [Bool.not_eq_true] using h)

/-- C2: mutual exclusion of the path-lock table.  In every state reachable
by acquire/release bracketing (the only way sync_full and sync_single touch
a path), at most one in-flight reconcile holds any given (mirror, rel)
key; try_acquire atomically inserts and reports busy on a held key;
wait_acquire returns success only on the strength of a successful
try_acquire, and failure only because the stop event was set at a poll
where the key was still busy. -/
theorem path_lock_mutual_exclusion :
    (∀ s : LockState, LockReachable s → ∀ k : SyncKey,
       (s.holders.filter (fun e => decide (e.2 = k))).length ≤ 1) ∧
    (∀ (active : List SyncKey) (k : SyncKey), k ∈ active →
       try_acquire_sync_path active k = (false, active)) ∧
    (∀ (active : List SyncKey) (k : SyncKey), k ∉ active →
       try_acquire_sync_path active k = (true, k :: active)) ∧
    (∀ (env : Nat → List SyncKey) (stopSet : Nat → Bool) (key : SyncKey)
       (fuel i : Nat),
       wait_acquire_sync_path env stopSet key fuel i = some true →
       ∃ j, (try_acquire_sync_path (env j) key).1 = true) ∧
    (∀ (env : Nat → List SyncKey) (stopSet : Nat → Bool) (key : SyncKey)
       (fuel i : Nat),
       wait_acquire_sync_path env stopSet key fuel i = some false →
       ∃ j, stopSet j = true ∧ (try_acquire_sync_path (env j) key).1 = false) := by
  refine ⟨?_, try_acquire_mem, try_acquire_not_mem,
    wait_acquire_some_true, wait_acquire_some_false⟩
  intro s hs k
  exact length_filter_key_le_one k (lock_invariant_reachable hs).2

/-- Witness for C2: after one worker acquires ("m", "a"), that key has
exactly one holder. -/
theorem path_lock_mutual_exclusion_witness :
    (((⟨[("m", "a")], [(0, ("m", "a"))]⟩ : LockState).holders.filter
        (fun e => decide (e.2 = (("m", "a") : SyncKey)))).length ≤ 1) :=
  path_lock_mutual_exclusion.1 ⟨[("m", "a")], [(0, ("m", "a"))]⟩
    (LockReachable.step LockReachable.init
      (LockStep.acquire 0 ("m", "a") ⟨[], []⟩ (by decide)))
    ("m", "a")

/-! C4: error propagation in the full sweep. -/

theorem sync_full_files_step (mirror rel : String) (res : FileResult)
    (rest : List (String × FileResult)) :
    sync_full_files mirror [] ((rel, res) :: rest)
      = match res with
        | FileResult.ioError msg => (some msg, [], [])
        | FileResult.ok =>
          ((sync_full_files mirror [] rest).1,
           rel :: (sync_full_files mirror [] rest).2.1,
           (sync_full_files mirror [] rest).2.2) := by
  cases res <;>
    simp [sync_full_files, try_acquire_sync_path, release_sync_path]

theorem sync_full_files_all_ok (mirror : String) :
    ∀ files : List (String × FileResult),
    (∀ e ∈ files, e.2 = FileResult.ok) →
    sync_full_files mirror [] files = (none, files.map Prod.fst, []) := by
  intro files
  induction files with
  | nil => intro _; rfl
  | cons e rest ih =>
    intro h
    obtain ⟨rel, res⟩ := e
    have hres : res = FileResult.ok := h (rel, res) (List.mem_cons_self _ _)
    subst hres
    rw [sync_full_files_step]
    simp [ih (fun e he => h e (List.mem_cons_of_mem _ he))]

theorem sync_full_files_error (mirror rel msg : String)
    (post : List (String × FileResult)) :
    ∀ pre : List (String × FileResult),
    (∀ e ∈ pre, e.2 = FileResult.ok) →
    sync_full_files mirror [] (pre ++ (rel, FileResult.ioError msg) :: post)
      = (some msg, pre.map Prod.fst, []) := by
  intro pre
  induction pre with
  | nil =>
    intro _
    rw [List.nil_append, sync_full_files_step]
    rfl
  | cons e rest ih =>
    intro h
    obtain ⟨r0, res⟩ := e
    have hres : res = FileResult.ok := h (r0, res) (List.mem_cons_self _ _)
    subst hres
    rw [List.cons_append, sync_full_files_step]
    simp [ih (fun e he => h e (List.mem_cons_of_mem _ he))]

/-- C4 counterexample: with a transient I/O error injected into the first
file's reconcile, sync_full's per-file loop propagates the error instead of
catching it — the processed list is empty and the remaining file "b.txt" is
never reconciled, so the sweep does not continue. -/
theorem sync_full_error_escapes_counterexample :
    sync_full_files "m" []
        [("a.txt", FileResult.ioError "copy failed"), ("b.txt", FileResult.ok)]
      = (some "copy failed", [], []) ∧
    "b.txt" ∉ (sync_full_files "m" []
        [("a.txt", FileResult.ioError "copy failed"),
         ("b.txt", FileResult.ok)]).2.1 := by
  decide

/-- C4 amended: a transient I/O error in one file's reconcile during
sync_full releases that file's path lock (the finally block) but aborts the
loop: files after the failing one are not reconciled, and the error is
caught only at the worker boundary in run, which turns it into an
"ERROR: <msg>" status for that mirror; an error-free sweep processes every
file and reports SYNCED. -/
theorem sync_full_error_to_worker_boundary (mirror : String)
    (pre post : List (String × FileResult)) (rel msg : String)
    (hpre : ∀ e ∈ pre, e.2 = FileResult.ok) :
    sync_full_files mirror [] (pre ++ (rel, FileResult.ioError msg) :: post)
      = (some msg, pre.map Prod.fst, []) ∧
    run_status (sync_full_files mirror []
        (pre ++ (rel, FileResult.ioError msg) :: post)) = "ERROR: " ++ msg ∧
    (∀ files : List (String × FileResult),
      (∀ e ∈ files, e.2 = FileResult.ok) →
      sync_full_files mirror [] files = (none, files.map Prod.fst, []) ∧
      run_status (sync_full_files mirror [] files) = "SYNCED") := by
  have herr := sync_full_files_error mirror rel msg post pre hpre
  refine ⟨herr, by rw [herr]; rfl, ?_⟩
  intro files hok
  have hall := sync_full_files_all_ok mirror files hok
  exact ⟨hall, by rw [hall]; rfl⟩

/-- Witness for C4's amended theorem: one clean file, then a failing one. -/
theorem sync_full_error_to_worker_boundary_witness :
    run_status (sync_full_files "m" []
        [("ok.txt", FileResult.ok), ("bad.txt", FileResult.ioError "io")])
      = "ERROR: " ++ "io" :=
  (sync_full_error_to_worker_boundary "m" [("ok.txt", FileResult.ok)] []
      "bad.txt" "io" (by decide)).2.1

/-! C8: progress formula and terminal 100. -/

theorem progress_percent_def (processed total : Nat) :
    progress_percent processed total =
      if (if total ≠ 0 then int_percent processed total else 100) ≥ 100 then 99
      else if total ≠ 0 then int_percent processed total else 100 := rfl

theorem progress_percent_le (processed total : Nat) :
    progress_percent processed total ≤ 99 := by
  rw [progress_percent_def]
  by_cases h : total ≠ 0
  · simp only [if_pos h]
    split <;> omega
  · simp only [if_neg h]
    norm_num

theorem copy_phase_get (stopAt : Option Nat) (total : Nat) :
    ∀ (remaining done j v : Nat),
    ((copy_phase stopAt total done remaining).1)[j]? = some v →
    v = progress_percent (done + j + 1) total := by
  intro remaining
  induction remaining with
  | zero => intro done j v h; simp [copy_phase] at h
  | succ n ih =>
    intro done j v h
    by_cases hs : stopped stopAt done = true
    · simp [copy_phase, hs] at h
    · rw [copy_phase, if_neg hs] at h
      cases j with
      | zero =>
        simp only [List.getElem?_cons_zero, Option.some.injEq] at h
        rw [← h]
      | succ m =>
        simp only [List.getElem?_cons_succ] at h
        have hv := ih (done + 1) m v h
        rw [hv]
        have harg : done + 1 + m + 1 = done + (m + 1) + 1 := by omega
        rw [harg]

theorem copy_phase_mem_le (stopAt : Option Nat) (total done remaining v : Nat)
    (hv : v ∈ (copy_phase stopAt total done remaining).1) : v ≤ 99 := by
  obtain ⟨j, hj⟩ := List.mem_iff_getElem?.mp hv
  rw [copy_phase_get stopAt total remaining done j v hj]
  exact progress_percent_le _ _

/-- C8 counterexample: the program computes the percent in binary64
floating point, and on the 29th of 100 files int((29/100)*100) evaluates
to 28 while the claimed formula min(99, floor(29/100·100)) gives 29 — the
emitted percent does not equal the claimed value. -/
theorem progress_percent_float_counterexample :
    progress_percent 29 100 = 28 ∧
    min 99 (29 * 100 / 100) = 29 ∧
    progress_percent 29 100 ≠ min 99 (29 * 100 / 100) := by
  decide

/-- C8 amended: after processing the k-th file the emitted percent is the
capped binary64 value progress_percent k total — which can fall one short
of min(99, floor(k·100/total)), as the counterexample records — every
per-file emission is at most 99, and the value 100 appears in the worker's
emission stream only when the copy phase and the orphan-file deletion pass
both ran to completion and the stop event was still unset at run's final
check. -/
theorem sweep_progress_reported (stopAt : Option Nat) (total delFiles : Nat) :
    (∀ j v, ((copy_phase stopAt total 0 total).1)[j]? = some v →
        v = progress_percent (j + 1) total) ∧
    (∀ v ∈ (copy_phase stopAt total 0 total).1, v ≤ 99) ∧
    (100 ∈ worker_emits stopAt total delFiles →
      (copy_phase stopAt total 0 total).2 = true ∧
      deletion_phase stopAt total delFiles = true ∧
      stopped stopAt (total + delFiles) = false) := by
  refine ⟨?_,
    fun v hv => copy_phase_mem_le stopAt total 0 total v hv, ?_⟩
  · intro j v h
    have hv := copy_phase_get stopAt total total 0 j v h
    rw [hv]
    have harg : 0 + j + 1 = j + 1 := by omega
    rw [harg]
  · intro h
    have hle : ∀ v ∈ (copy_phase stopAt total 0 total).1, v ≤ 99 :=
      fun v hv => copy_phase_mem_le stopAt total 0 total v hv
    simp only [worker_emits] at h
    by_cases h1 : (copy_phase stopAt total 0 total).2 = false
    · rw [if_pos h1] at h
      exact absurd (hle 100 h) (by omega)
    · rw [if_neg h1] at h
      by_cases h2 : deletion_phase stopAt total delFiles = false
      · rw [if_pos h2] at h
        exact absurd (hle 100 h) (by omega)
      · rw [if_neg h2] at h
        by_cases h3 : stopped stopAt (total + delFiles) = true
        · rw [if_pos h3] at h
          exact absurd (hle 100 h) (by omega)
        · refine ⟨?_, ?_, ?_⟩
          · revert h1; cases (copy_phase stopAt total 0 total).2 <;> simp
          · revert h2; cases deletion_phase stopAt total delFiles <;> simp
          · revert h3; cases stopped stopAt (total + delFiles) <;> simp

/-- Witness for C8's amended theorem: a four-file sweep emits 25 after the
first file, and every such emission is at most 99. -/
theorem sweep_progress_reported_witness :
    25 ∈ (copy_phase none 4 0 4).1 ∧ (25 : Nat) ≤ 99 :=
  ⟨by decide, (sweep_progress_reported none 4 2).2.1 25 (by decide)⟩

/-! C1: snapshot-commit idempotence. -/

theorem store_object_data_fst (hash : String → String) (fs : FS)
    (mirror : Path) (d : FileData) :
    (store_object_data hash fs mirror d).1 = hash d.content := by
  rw [store_object_data_eq]

theorem walkEntry_not_under (root : Path) (e : Path × Node)
    (hp : root.isPrefixOf e.1 = false) : walkEntry root e = none := by
  cases h : e.2.isDir <;> simp [walkEntry, h, hp]

theorem walkFiles_cons (e : Path × Node) (rest : FS) (root : Path) :
    walkFiles (e :: rest) root
      = match walkEntry root e with
        | none => walkFiles rest root
        | some r => r :: walkFiles rest root := by
  rw [walkFiles, List.filterMap_cons]
  cases walkEntry root e <;> rfl

theorem walkFiles_fsErase_not_under (fs : FS) (root p : Path)
    (hp : root.isPrefixOf p = false) :
    walkFiles (fsErase fs p) root = walkFiles fs root := by
  induction fs with
  | nil => rfl
  | cons e rest ih =>
    by_cases he : e.1 = p
    · have hnone : walkEntry root e = none :=
        walkEntry_not_under root e (by rw [he]; exact hp)
      show walkFiles (if e.1 = p then fsErase rest p else e :: fsErase rest p)
          root = walkFiles (e :: rest) root
      rw [if_pos he, walkFiles_cons, hnone]
      exact ih
    · show walkFiles (if e.1 = p then fsErase rest p else e :: fsErase rest p)
          root = walkFiles (e :: rest) root
      rw [if_neg he, walkFiles_cons, walkFiles_cons, ih]

theorem walkFiles_fsWrite_not_under (fs : FS) (root p : Path) (n : Node)
    (hp : root.isPrefixOf p = false) :
    walkFiles (fsWrite fs p n) root = walkFiles fs root := by
  have hnone : walkEntry root (p, n) = none := walkEntry_not_under root (p, n) hp
  have h1 : walkFiles (fsWrite fs p n) root = walkFiles (fsErase fs p) root := by
    simp [fsWrite, walkFiles, List.filterMap_cons, hnone]
  rw [h1, walkFiles_fsErase_not_under fs root p hp]

theorem current_root_not_prefix_object (mirror : Path) (h : String) :
    (current_root mirror).isPrefixOf (object_path mirror h) = false := by
  have hne : ¬ (current_root mirror <+: object_path mirror h) := by
    rw [current_root, object_path]
    rw [List.prefix_append_right_inj]
    rintro ⟨t, ht⟩
    injection ht with h1 _
    exact absurd h1 (by decide)
  cases hb : (current_root mirror).isPrefixOf (object_path mirror h)
  · rfl
  · exact absurd (List.isPrefixOf_iff_prefix.mp hb) hne

theorem build_step_fst (hash : String → String) (mirror : Path)
    (acc : List (String × String) × FS) (e : Path × FileData) :
    (build_step hash mirror acc e).1
      = acc.1 ++ [(relName e.1, hash e.2.content)] := by
  simp [build_step, store_object_data_fst]

theorem foldl_build_step_fst (hash : String → String) (mirror : Path) :
    ∀ (l : List (Path × FileData)) (acc : List (String × String) × FS),
    (l.foldl (build_step hash mirror) acc).1
      = acc.1 ++ l.map (fun e => (relName e.1, hash e.2.content)) := by
  intro l
  induction l with
  | nil => intro acc; simp
  | cons e rest ih =>
    intro acc
    rw [List.foldl_cons, ih, build_step_fst]
    simp

theorem foldl_build_step_walk (hash : String → String) (mirror root : Path)
    (hroot : ∀ hsh : String,
      root.isPrefixOf (object_path mirror hsh) = false) :
    ∀ (l : List (Path × FileData)) (acc : List (String × String) × FS),
    walkFiles (l.foldl (build_step hash mirror) acc).2 root
      = walkFiles acc.2 root := by
  intro l
  induction l with
  | nil => intro acc; rfl
  | cons e rest ih =>
    intro acc
    rw [List.foldl_cons, ih]
    show walkFiles (store_object_data hash acc.2 mirror e.2).2 root
      = walkFiles acc.2 root
    rw [store_object_data_eq]
    dsimp only
    split
    · rfl
    · exact walkFiles_fsWrite_not_under _ root _ _ (hroot _)

theorem build_snapshot_files (hash : String → String) (fs : FS)
    (croot mirror : Path) (now : String) :
    (build_snapshot hash fs croot mirror now).1
      = ⟨now, (walkFiles fs croot).map
          (fun e => (relName e.1, hash e.2.content))⟩ := by
  show (⟨now, ((walkFiles fs croot).foldl (build_step hash mirror) ([], fs)).1⟩
      : Snapshot) = _
  rw [foldl_build_step_fst]
  simp

theorem build_snapshot_walk (hash : String → String) (fs : FS)
    (mirror : Path) (now : String) :
    walkFiles (build_snapshot hash fs (current_root mirror) mirror now).2
        (current_root mirror)
      = walkFiles fs (current_root mirror) := by
  show walkFiles ((walkFiles fs (current_root mirror)).foldl
      (build_step hash mirror) ([], fs)).2 (current_root mirror) = _
  exact foldl_build_step_walk hash mirror (current_root mirror)
    (current_root_not_prefix_object mirror) _ _

theorem last_snapshot_append (snaps : List (String × Snapshot))
    (e : String × Snapshot)
    (hfresh : ∀ x ∈ snaps, strLe x.1 e.1 = true) :
    last_snapshot (snaps ++ [e]) = some e := by
  induction snaps with
  | nil => rfl
  | cons x rest ih =>
    have hx : strLe x.1 e.1 = true := hfresh x (List.mem_cons_self _ _)
    rw [List.cons_append, last_snapshot,
        ih (fun y hy => hfresh y (List.mem_cons_of_mem _ hy))]
    simp [hx]

theorem maybe_create_snapshot_eq (hash : String → String) (now : String)
    (mirror : Path) (st : MState) :
    maybe_create_snapshot hash now mirror st =
      if some (snapshot_hash hash
            (build_snapshot hash st.fs (current_root mirror) mirror now).1)
          = last_snapshot_hash hash st.snapshots
      then (none,
            ⟨(build_snapshot hash st.fs (current_root mirror) mirror now).2,
             st.snapshots⟩)
      else (some (build_snapshot hash st.fs (current_root mirror) mirror
              now).1.timestamp,
            ⟨(build_snapshot hash st.fs (current_root mirror) mirror now).2,
             st.snapshots ++
               [((build_snapshot hash st.fs (current_root mirror) mirror
                    now).1.timestamp,
                 (build_snapshot hash st.fs (current_root mirror) mirror
                    now).1)]⟩) := rfl

theorem maybe_create_snapshot_suppressed (hash : String → String)
    (now : String) (mirror : Path) (st : MState)
    (hlsh : last_snapshot_hash hash st.snapshots
        = some (hash (json_dumps_sorted
            ((walkFiles st.fs (current_root mirror)).map
              (fun e => (relName e.1, hash e.2.content)))))) :
    maybe_create_snapshot hash now mirror st
      = (none,
         ⟨(build_snapshot hash st.fs (current_root mirror) mirror now).2,
          st.snapshots⟩) := by
  rw [maybe_create_snapshot_eq, if_pos]
  rw [build_snapshot_files, hlsh]
  rfl

/-- C1: snapshot commit is idempotent on unchanged content.  First, if the
digest of the canonical serialization of the built manifest's files map
equals the digest recomputed from the most recent on-disk snapshot, then
maybe_create_snapshot returns none and appends no manifest.  Second, for
two consecutive calls with nothing else touching the state (the second
fire sees exactly what the first left, and the first call's timestamp
sorts at least as high as every existing snapshot filename), the second
call returns none and the set of snapshots does not change. -/
theorem maybe_create_snapshot_idempotent (hash : String → String)
    (now1 now2 : String) (mirror : Path) (st : MState)
    (hfresh : ∀ e ∈ st.snapshots, strLe e.1 now1 = true) :
    (last_snapshot_hash hash st.snapshots
        = some (snapshot_hash hash
            (build_snapshot hash st.fs (current_root mirror) mirror now1).1) →
      maybe_create_snapshot hash now1 mirror st
        = (none,
           ⟨(build_snapshot hash st.fs (current_root mirror) mirror now1).2,
            st.snapshots⟩)) ∧
    ((maybe_create_snapshot hash now2 mirror
        (maybe_create_snapshot hash now1 mirror st).2).1 = none ∧
     (maybe_create_snapshot hash now2 mirror
        (maybe_create_snapshot hash now1 mirror st).2).2.snapshots
        = (maybe_create_snapshot hash now1 mirror st).2.snapshots) := by
  have hwalk := build_snapshot_walk hash st.fs mirror now1
  have hfiles1 :
      (build_snapshot hash st.fs (current_root mirror) mirror now1).1.files
        = (walkFiles st.fs (current_root mirror)).map
            (fun e => (relName e.1, hash e.2.content)) := by
    rw [build_snapshot_files]
  constructor
  · intro hold
    rw [maybe_create_snapshot_eq, if_pos hold.symm]
  · by_cases hcase :
      some (snapshot_hash hash
          (build_snapshot hash st.fs (current_root mirror) mirror now1).1)
        = last_snapshot_hash hash st.snapshots
    · have hr1 : maybe_create_snapshot hash now1 mirror st
          = (none,
             ⟨(build_snapshot hash st.fs (current_root mirror) mirror now1).2,
              st.snapshots⟩) := by
        rw [maybe_create_snapshot_eq, if_pos hcase]
      rw [hr1]
      have hlsh2 : last_snapshot_hash hash
            (MState.mk (build_snapshot hash st.fs (current_root mirror) mirror
                now1).2 st.snapshots).snapshots
          = some (hash (json_dumps_sorted
              ((walkFiles
                  (MState.mk (build_snapshot hash st.fs (current_root mirror)
                      mirror now1).2 st.snapshots).fs
                  (current_root mirror)).map
                (fun e => (relName e.1, hash e.2.content))))) := by
        show last_snapshot_hash hash st.snapshots = _
        rw [show (MState.mk (build_snapshot hash st.fs (current_root mirror)
              mirror now1).2 st.snapshots).fs
            = (build_snapshot hash st.fs (current_root mirror) mirror now1).2
          from rfl]
        rw [hwalk, ← hfiles1]
        exact hcase.symm
      have h2 := maybe_create_snapshot_suppressed hash now2 mirror
        (MState.mk (build_snapshot hash st.fs (current_root mirror) mirror
            now1).2 st.snapshots) hlsh2
      dsimp only
      rw [h2]
      exact ⟨rfl, rfl⟩
    · have hr1 : maybe_create_snapshot hash now1 mirror st
          = (some (build_snapshot hash st.fs (current_root mirror) mirror
                now1).1.timestamp,
             ⟨(build_snapshot hash st.fs (current_root mirror) mirror now1).2,
              st.snapshots ++
                [((build_snapshot hash st.fs (current_root mirror) mirror
                     now1).1.timestamp,
                  (build_snapshot hash st.fs (current_root mirror) mirror
                     now1).1)]⟩) := by
        rw [maybe_create_snapshot_eq, if_neg hcase]
      rw [hr1]
      have hts : (build_snapshot hash st.fs (current_root mirror) mirror
          now1).1.timestamp = now1 := by
        rw [build_snapshot_files]
      have hlast : last_snapshot (st.snapshots ++
          [((build_snapshot hash st.fs (current_root mirror) mirror
               now1).1.timestamp,
            (build_snapshot hash st.fs (current_root mirror) mirror
               now1).1)])
          = some ((build_snapshot hash st.fs (current_root mirror) mirror
               now1).1.timestamp,
              (build_snapshot hash st.fs (current_root mirror) mirror
               now1).1) := by
        apply last_snapshot_append
        intro x hx
        rw [hts]
        exact hfresh x hx
      have hlsh2 : last_snapshot_hash hash
            (MState.mk (build_snapshot hash st.fs (current_root mirror) mirror
                now1).2
              (st.snapshots ++
                [((build_snapshot hash st.fs (current_root mirror) mirror
                     now1).1.timestamp,
                  (build_snapshot hash st.fs (current_root mirror) mirror
                     now1).1)])).snapshots
          = some (hash (json_dumps_sorted
              ((walkFiles
                  (MState.mk (build_snapshot hash st.fs (current_root mirror)
                        mirror now1).2
                    (st.snapshots ++
                      [((build_snapshot hash st.fs (current_root mirror)
                           mirror now1).1.timestamp,
                        (build_snapshot hash st.fs (current_root mirror)
                           mirror now1).1)])).fs
                  (current_root mirror)).map
                (fun e => (relName e.1, hash e.2.content))))) := by
        show last_snapshot_hash hash (st.snapshots ++
            [((build_snapshot hash st.fs (current_root mirror) mirror
                 now1).1.timestamp,
              (build_snapshot hash st.fs (current_root mirror) mirror
                 now1).1)]) = _
        rw [last_snapshot_hash, hlast]
        show some (snapshot_hash hash
            (build_snapshot hash st.fs (current_root mirror) mirror now1).1)
          = _
        rw [show (MState.mk (build_snapshot hash st.fs (current_root mirror)
              mirror now1).2
              (st.snapshots ++
                [((build_snapshot hash st.fs (current_root mirror) mirror
                     now1).1.timestamp,
                  (build_snapshot hash st.fs (current_root mirror) mirror
                     now1).1)])).fs
            = (build_snapshot hash st.fs (current_root mirror) mirror now1).2
          from rfl]
        rw [hwalk, snapshot_hash, hfiles1]
      have h2 := maybe_create_snapshot_suppressed hash now2 mirror
        (MState.mk (build_snapshot hash st.fs (current_root mirror) mirror
            now1).2
          (st.snapshots ++
            [((build_snapshot hash st.fs (current_root mirror) mirror
                 now1).1.timestamp,
              (build_snapshot hash st.fs (current_root mirror) mirror
                 now1).1)])) hlsh2
      dsimp only
      rw [h2]
      exact ⟨rfl, rfl⟩

/-- Witness for C1: a fresh mirror with one file commits on the first fire
and suppresses the second. -/
theorem maybe_create_snapshot_idempotent_witness :
    (maybe_create_snapshot (fun s => s) "2024-01-01_01-00-00" ["m"]
        (maybe_create_snapshot (fun s => s) "2024-01-01_00-00-00" ["m"]
          exampleMState).2).1 = none :=
  (maybe_create_snapshot_idempotent (fun s => s) "2024-01-01_00-00-00"
      "2024-01-01_01-00-00" ["m"] exampleMState
      (fun e he => absurd he (List.not_mem_nil e))).2.1

end Watchback
